import Mathlib

/-!
# The evaluation-matching client (`srcs/client/client.go`)

A shallow embedding of the two waiting queues of the client package, the two
mutexes that guard them, and the operations `Submit`, `SubmitCancel`,
`Register`, `RegisterCancel` and `matchEmbedRow`, followed by the properties
of the queues that the specification states.

Modelling decisions.

* A Go `[]string` is a window on a backing array.  `Slice` keeps the cells
  inside the window (`elems`, indices `0 .. len-1`) and the cells of the array
  behind the window (`spare`, indices `len .. cap-1`).  The built-in `append`
  writes into the array when the new elements fit, and that write is visible
  through every slice header on the same array; `Appended.array` records it.
* A `sync.Mutex` is a flag, `true` when held.  `Lock` on a held mutex never
  completes: the calling goroutine stays blocked, and since no operation of the
  package releases a mutex it did not acquire, it stays blocked for good.  The
  outcome `Result.blocked` is that situation.
* Every operation is a function from the state before the call to a `Result`,
  written in the `Exec` monad line by line after the Go text.
-/

set_option linter.unusedVariables false

namespace PiscineClient

/-! ## Slices -/

/-- A Go `[]string`: `elems` are the cells `s[0] .. s[len-1]`, `spare` the cells
of the backing array between `len` and `cap`. -/
structure Slice where
  elems : List String
  spare : List String
deriving DecidableEq, Repr

namespace Slice

/-- Go `len(s)`. -/
def len (s : Slice) : Nat := s.elems.length

/-- Go `cap(s)`. -/
def cap (s : Slice) : Nat := s.elems.length + s.spare.length

/-- All cells of the backing array from the base of the slice up to its capacity. -/
def cells (s : Slice) : List String := s.elems ++ s.spare

/-- Go `make([]string, 0, n)`: no elements, `n` zero-valued cells of capacity. -/
def make (n : Nat) : Slice := ⟨[], List.replicate n ""⟩

/-- Go `s[:n]`: same base, length `n`; a run-time panic when `n > cap(s)`. -/
def upTo (s : Slice) (n : Nat) : Option Slice :=
  if n ≤ s.cap then some ⟨s.cells.take n, s.cells.drop n⟩ else none

/-- The elements of Go `s[j:]`; a run-time panic when `j > len(s)`. -/
def elemsFrom (s : Slice) (j : Nat) : Option (List String) :=
  if j ≤ s.len then some (s.elems.drop j) else none

/-- The slice header `s` read again after the cells of its backing array have
become `array`: base, length and capacity are those of `s`. -/
def over (s : Slice) (array : List String) : Slice :=
  ⟨array.take s.len, array.drop s.len⟩

end Slice

/-- What a call of the built-in `append(s, xs...)` leaves behind: the slice it
returns, and the cells of the backing array of `s` after the call. -/
structure Appended where
  result : Slice
  array : List String
deriving DecidableEq, Repr

/-- Go `append(s, xs...)`.  When the elements fit in the capacity they are
written behind `s` in its own backing array and the result shares that array.
Otherwise a larger array is allocated and the array of `s` is left as it was.
How large the new array is depends on the Go runtime (its growth rule and
allocation size classes); the number used here, twice the capacity or what is
needed if that is more, stands in for it.  It decides only how many `spare`
cells the result has, never its elements.  The elements `xs` are read before
anything is written, as `append` does for overlapping arguments. -/
def append (s : Slice) (xs : List String) : Appended :=
  if xs.length ≤ s.spare.length then
    let r : Slice := ⟨s.elems ++ xs, s.spare.drop xs.length⟩
    ⟨r, r.cells⟩
  else
    let n := s.len + xs.length
    ⟨⟨s.elems ++ xs, List.replicate (max (2 * s.cap) n - n) ""⟩, s.cells⟩

/-- Source `removeClient`: `return append(list[:i], list[i+1:]...)`.
`none` is the run-time panic of an out-of-range slice expression.
`list[:i]` has the base of `list`, so `Appended.array` is the backing array of
`list` after the call. -/
def removeClient (list : Slice) (i : Nat) : Option Appended :=
  match list.upTo i, list.elemsFrom (i + 1) with
  | some head, some tail => some (append head tail)
  | _, _ => none

/-! ## Package state -/

/-- A notification channel (`chan MatchInfo`), identified by a number. -/
abbrev Chan := Nat

/-- Source `SubjectInfo`. -/
structure SubjectInfo where
  SubjectName : String
  SubjectURL : String
  EvalGuideURL : String
deriving DecidableEq, Repr

/-- Source `MatchInfo`: `Code` is true for a match and false for a cancellation. -/
structure MatchInfo where
  Code : Bool
  InterviewerID : String
  IntervieweeID : String
  subject : SubjectInfo
deriving DecidableEq, Repr

/-- The package-level variables the queue operations touch, and the record of
every value sent on a channel so far (`sent`, oldest first). -/
structure State where
  IntervieweeList : Slice
  InterviewerList : Slice
  IntervieweeMutex : Bool
  InterviewerMutex : Bool
  sent : List (Chan × MatchInfo)
deriving DecidableEq, Repr

/-- Source `init`: both queues `make([]string, 0, 100)`, both mutexes free. -/
def init : State :=
  { IntervieweeList := Slice.make 100
    InterviewerList := Slice.make 100
    IntervieweeMutex := false
    InterviewerMutex := false
    sent := [] }

/-- The two mutexes of the package. -/
inductive MutexId where
  | IntervieweeMutex
  | InterviewerMutex
deriving DecidableEq, Repr

/-- The two queues of the package. -/
inductive PoolId where
  | IntervieweeList
  | InterviewerList
deriving DecidableEq, Repr

namespace State

/-- Whether mutex `m` is held. -/
def held (st : State) : MutexId → Bool
  | .IntervieweeMutex => st.IntervieweeMutex
  | .InterviewerMutex => st.InterviewerMutex

/-- Set the flag of mutex `m`. -/
def setHeld (st : State) (m : MutexId) (b : Bool) : State :=
  match m with
  | .IntervieweeMutex => { st with IntervieweeMutex := b }
  | .InterviewerMutex => { st with InterviewerMutex := b }

/-- The queue named by `l`. -/
def pool (st : State) : PoolId → Slice
  | .IntervieweeList => st.IntervieweeList
  | .InterviewerList => st.InterviewerList

/-- The waiting submitters, oldest first. -/
def submitters (st : State) : List String := st.IntervieweeList.elems

/-- The waiting evaluators, oldest first. -/
def evaluators (st : State) : List String := st.InterviewerList.elems

end State

/-! ## Execution -/

/-- How a call ends: it returns `a`, or its goroutine is blocked for good in a
`Lock`, or it panics.  `st` is the package state at that point. -/
inductive Result (α : Type) where
  | done (a : α) (st : State)
  | blocked (st : State)
  | panicked (st : State)
deriving DecidableEq, Repr

namespace Result

/-- The package state in which the call ended. -/
def state {α : Type} : Result α → State
  | .done _ st => st
  | .blocked st => st
  | .panicked st => st

/-- The returned value, if the call returned. -/
def value {α : Type} : Result α → Option α
  | .done a _ => some a
  | .blocked _ => none
  | .panicked _ => none

end Result

/-- A piece of Go code acting on the package state. -/
def Exec (α : Type) : Type := State → Result α

/-- Sequencing: what follows a blocked or panicked statement is not executed. -/
def Exec.bind {α β : Type} (m : Exec α) (f : α → Exec β) : Exec β := fun st =>
  match m st with
  | .done a st1 => f a st1
  | .blocked st1 => .blocked st1
  | .panicked st1 => .panicked st1

instance : Monad Exec where
  pure a := fun st => .done a st
  bind := Exec.bind

/-- Read the package state. -/
def getState : Exec State := fun st => .done st st

/-- Assignment to the global `IntervieweeList`. -/
def setIntervieweeList (l : Slice) : Exec Unit := fun st =>
  .done () { st with IntervieweeList := l }

/-- Assignment to the global `InterviewerList`. -/
def setInterviewerList (l : Slice) : Exec Unit := fun st =>
  .done () { st with InterviewerList := l }

/-- A value that may be a run-time panic. -/
def orPanic {α : Type} : Option α → Exec α
  | some a => fun st => .done a st
  | none => fun st => .panicked st

/-- Go `m.Lock()`: acquires a free mutex; on a held mutex the caller blocks. -/
def Lock (m : MutexId) : Exec Unit := fun st =>
  if st.held m then .blocked st else .done () (st.setHeld m true)

/-- Go `m.Unlock()`: releases a held mutex; unlocking a free mutex is a fatal
run-time error. -/
def Unlock (m : MutexId) : Exec Unit := fun st =>
  if st.held m then .done () (st.setHeld m false) else .panicked st

/-- Go `defer d` followed by `body`: `d` runs when `body` returns or panics,
before the function hands its result to the caller. -/
def deferring {α : Type} (d : Exec Unit) (body : Exec α) : Exec α := fun st =>
  match body st with
  | .done a st1 =>
    match d st1 with
    | .done _ st2 => .done a st2
    | .blocked st2 => .blocked st2
    | .panicked st2 => .panicked st2
  | .blocked st1 => .blocked st1
  | .panicked st1 =>
    match d st1 with
    | .done _ st2 => .panicked st2
    | .blocked st2 => .blocked st2
    | .panicked st2 => .panicked st2

/-! ## The queue operations -/

/-- Source `Client.Submit`.  The receiver and the arguments `sid`, `url` and
`matchedUserId` are not used by the body. -/
def Submit (sid uid url : String) (matchedUserId : Chan) : Exec String := do
  Lock .InterviewerMutex
  deferring (Lock .InterviewerMutex) do
    if (← getState).InterviewerList.len = 0 then
      Lock .IntervieweeMutex
      setIntervieweeList (append (← getState).IntervieweeList [uid]).result
      Unlock .IntervieweeMutex
      pure "제출완료"
    else
      -- send to each other
      let r ← orPanic (removeClient (← getState).InterviewerList 0)
      setInterviewerList r.result
      pure "제출완료"

/-- The loop `for i, v := range list { if v == uid { ... return } }`: the index
of the first element equal to `uid`, counting from `i`. -/
def rangeFind (uid : String) : List String → Nat → Option Nat
  | [], _ => none
  | v :: vs, i => if v = uid then some i else rangeFind uid vs (i + 1)

/-- Source `Client.SubmitCancel`.  The value of `removeClient(IntervieweeList, i)`
is dropped: the global keeps its header and sees the array the call wrote to. -/
def SubmitCancel (uid : String) : Exec String := do
  Lock .IntervieweeMutex
  deferring (Unlock .IntervieweeMutex) do
    let list := (← getState).IntervieweeList
    match rangeFind uid list.elems 0 with
    | some i =>
      let r ← orPanic (removeClient list i)
      setIntervieweeList (list.over r.array)
      pure "취소완료"
    | none => pure "취소오류"

/-- Source `Client.Register`.  The argument `matchedUid` is not used by the body. -/
def Register (uid : String) (matchedUid : Chan) : Exec String := do
  Lock .IntervieweeMutex
  deferring (Unlock .IntervieweeMutex) do
    if (← getState).IntervieweeList.len = 0 then
      Lock .InterviewerMutex
      setInterviewerList (append (← getState).InterviewerList [uid]).result
      Unlock .InterviewerMutex
      pure "평가등록완료"
    else
      -- send to each other
      let r ← orPanic (removeClient (← getState).IntervieweeList 0)
      setIntervieweeList r.result
      pure "평가등록완료"

/-- Source `Client.RegisterCancel`.  The value of `removeClient(InterviewerList, i)`
is dropped, as in `SubmitCancel`. -/
def RegisterCancel (uid : String) : Exec String := do
  Lock .InterviewerMutex
  deferring (Unlock .InterviewerMutex) do
    let list := (← getState).InterviewerList
    match rangeFind uid list.elems 0 with
    | some i =>
      let r ← orPanic (removeClient list i)
      setInterviewerList (list.over r.array)
      pure "평가취소완료"
    | none => pure "평가취소오류"

/-! ## The status row -/

/-- Modelled from the spec: the declaration of `EmbedRow` is not among the
sources; these are the two fields `matchEmbedRow` assigns. -/
structure EmbedRow where
  name : String
  lines : List String
deriving DecidableEq, Repr

/-- The loop of `matchEmbedRow`: `for _, v := range *l { if i, ok := (*p)[v]; ok
{ tempLines = append(tempLines, i) } }`, with `tempLines` passed along. -/
def collectNames (p : String → Option String) : List String → List String → List String
  | [], tempLines => tempLines
  | v :: vs, tempLines =>
    match p v with
    | some i => collectNames p vs (tempLines ++ [i])
    | none => collectNames p vs tempLines

/-- Source `matchEmbedRow`.  The map `*p` is its lookup function, `m` and `l`
name the mutex and the queue the pointers refer to. -/
def matchEmbedRow (m : MutexId) (s : String) (p : String → Option String) (l : PoolId) :
    Exec EmbedRow := do
  Lock m
  let tempLines := collectNames p ((← getState).pool l).elems []
  Unlock m
  if tempLines.length = 0 then
    pure { name := s, lines := tempLines ++ ["대기열 없음"] }
  else
    pure { name := s, lines := tempLines }

/-! ## Sequences of calls -/

/-- One call of a queue operation with its arguments. -/
inductive Call where
  | Submit (sid uid url : String) (ch : Chan)
  | SubmitCancel (uid : String)
  | Register (uid : String) (ch : Chan)
  | RegisterCancel (uid : String)
deriving DecidableEq, Repr

namespace Call

/-- The operation a call stands for. -/
def exec : Call → Exec String
  | .Submit sid uid url ch => PiscineClient.Submit sid uid url ch
  | .SubmitCancel uid => PiscineClient.SubmitCancel uid
  | .Register uid ch => PiscineClient.Register uid ch
  | .RegisterCancel uid => PiscineClient.RegisterCancel uid

/-- The participant making the call. -/
def uid : Call → String
  | .Submit _ uid _ _ => uid
  | .SubmitCancel uid => uid
  | .Register uid _ => uid
  | .RegisterCancel uid => uid

/-- Whether the call is a `Submit` or a `Register`. -/
def isArrival : Call → Bool
  | .Submit _ _ _ _ => true
  | .Register _ _ => true
  | _ => false

end Call

/-- The package state after call `c` has run from `st` as far as it gets: to
its return, or to the `Lock` in which it stays blocked. -/
def step (st : State) (c : Call) : State := (c.exec st).state

/-- Calls issued one after another, each after the one before has returned or
has come to rest in a `Lock`. -/
def run (st : State) (calls : List Call) : State := calls.foldl step st

/-- The elements of `l` with element `i` taken out and the last element
repeated at the end: same length as `l` when `i` is an index of `l`. -/
def shifted (l : List String) (i : Nat) : List String :=
  l.take i ++ l.drop (i + 1) ++ l.drop (l.length - 1)

/-- The entry a call takes from the front of the opposite queue when it runs
from `st`: the oldest entry of that queue if the queue is shorter afterwards. -/
def Call.popped (c : Call) (st : State) : Option String :=
  match c with
  | .Submit _ _ _ _ =>
    if (step st c).evaluators.length < st.evaluators.length then st.evaluators.head? else none
  | .Register _ _ =>
    if (step st c).submitters.length < st.submitters.length then st.submitters.head? else none
  | _ => none

/-- Every waiting participant of both pools, submitters first. -/
def State.waiting (st : State) : List String := st.submitters ++ st.evaluators

/-! ## States and tables used as examples -/

/-- The state after `Register("a")`, `Register("b")` from the initial state:
evaluators `a`, `b` wait in this order, both mutexes are free. -/
def twoEvaluators : State := run init [.Register "a" 1, .Register "b" 2]

/-- The state after `Submit("Day01", "u1", ...)` from the initial state: `u1`
waits in the submitter pool, `InterviewerMutex` is held by the stuck call. -/
def oneSubmitter : State := run init [.Submit "Day01" "u1" "url" 1]

/-- The state after `Register("u1")` from the initial state: `u1` waits in the
evaluator pool, both mutexes are free. -/
def oneEvaluator : State := run init [.Register "u1" 1]

/-- The state after `Submit("Day01", "u1", ...)` and `Register("e1")` from the
initial state: `e1` was matched with `u1`, both pools are empty, and
`InterviewerMutex` is still held by the stuck `Submit`. -/
def afterSubmitMatch : State :=
  run init [.Submit "Day01" "u1" "url" 1, .Register "e1" 2]

/-- The state after `Register("e1")` and `Submit("Day01", "s1", ...)` from the
initial state: `s1` was matched with `e1`, both pools are empty, and
`InterviewerMutex` is still held by the stuck `Submit`. -/
def afterRegisterMatch : State :=
  run init [.Register "e1" 1, .Submit "Day01" "s1" "url" 2]

/-- The state after `Submit("Day01", "u1", ...)`, `Register("u2")` and
`Register("u3")` from the initial state: `u2` was matched with `u1`, and
`Register("u3")` is stuck in `InterviewerMutex.Lock()` holding
`IntervieweeMutex`. -/
def afterStuckRegister : State :=
  run init [.Submit "Day01" "u1" "url" 1, .Register "u2" 2, .Register "u3" 3]

/-- A state with `u1` in the submitter pool and both mutexes free. -/
def waitingSubmitter : State := { init with IntervieweeList := ⟨["u1"], []⟩ }

/-- A name table that knows `a` as `alice` and nobody else. -/
def onlyAlice (uid : String) : Option String := if uid = "a" then some "alice" else none

/-! ## Slice lemmas -/

theorem append_result_elems (s : Slice) (xs : List String) :
    (append s xs).result.elems = s.elems ++ xs := by
  unfold append; split <;> rfl

theorem removeClient_eq (list : Slice) (i : Nat) (h : i < list.len) :
    removeClient list i =
      some (append ⟨list.elems.take i, list.elems.drop i ++ list.spare⟩
        (list.elems.drop (i + 1))) := by
  obtain ⟨e, s⟩ := list
  simp only [Slice.len] at h
  have h1 : i ≤ e.length + s.length := by omega
  have h2 : i + 1 ≤ e.length := h
  have h3 : i ≤ e.length := by omega
  simp [removeClient, Slice.upTo, Slice.elemsFrom, Slice.len, Slice.cap, Slice.cells, h1, h2,
    List.take_append_of_le_length h3, List.drop_append_of_le_length h3]

theorem shifted_cells (e s : List String) (i : Nat) (h : i < e.length) :
    List.drop (List.drop (i + 1) e).length (List.drop i e ++ s) =
      List.drop (e.length - 1) e ++ s := by
  have h1 : (List.drop (i + 1) e).length ≤ (List.drop i e).length := by simp; omega
  rw [List.drop_append_of_le_length h1, List.drop_drop]
  congr 2
  simp; omega

theorem shifted_length (e : List String) (i : Nat) (h : i < e.length) :
    (List.take i e ++ List.drop (i + 1) e ++ List.drop (e.length - 1) e).length = e.length := by
  simp; omega

theorem over_shifted (e s : List String) (i : Nat) (h : i < e.length) :
    Slice.over ⟨e, s⟩
        (List.take i e ++ List.drop (i + 1) e ++ (List.drop (e.length - 1) e ++ s)) =
      ⟨List.take i e ++ List.drop (i + 1) e ++ List.drop (e.length - 1) e, s⟩ := by
  have hl := shifted_length e i h
  simp only [Slice.over, Slice.len]
  rw [← List.append_assoc]
  congr 1
  · rw [List.take_append_of_le_length (by omega), List.take_of_length_le (by omega)]
  · rw [List.drop_append_of_le_length (by omega), List.drop_of_length_le (by omega)]
    rfl

/-- The effect of `removeClient(list, i)` for an index inside the slice: the
returned slice is `list` without element `i`; the header `list` itself keeps
its length and sees the elements behind `i` moved one place to the front, the
last element standing twice. -/
theorem removeClient_spec (list : Slice) (i : Nat) (h : i < list.len) :
    ∃ r, removeClient list i = some r ∧
      r.result.elems = list.elems.take i ++ list.elems.drop (i + 1) ∧
      list.over r.array =
        ⟨list.elems.take i ++ list.elems.drop (i + 1) ++ list.elems.drop (list.len - 1),
          list.spare⟩ := by
  refine ⟨_, removeClient_eq list i h, append_result_elems _ _, ?_⟩
  obtain ⟨e, s⟩ := list
  simp only [Slice.len] at h
  have hfit : (List.drop (i + 1) e).length ≤ (List.drop i e ++ s).length := by
    simp; omega
  simp only [append, hfit, if_true, Slice.cells, Slice.len]
  rw [shifted_cells e s i h]
  exact over_shifted e s i h

theorem rangeFind_bounds (uid : String) (l : List String) (k i : Nat)
    (h : rangeFind uid l k = some i) : k ≤ i ∧ i < k + l.length := by
  induction l generalizing k with
  | nil => simp [rangeFind] at h
  | cons v vs ih =>
    simp only [rangeFind] at h
    split at h
    · simp at h; subst h; simp
    · have := ih (k + 1) h
      simp only [List.length_cons]; omega

theorem rangeFind_none (uid : String) (l : List String) (k : Nat) :
    rangeFind uid l k = none ↔ uid ∉ l := by
  induction l generalizing k with
  | nil => simp [rangeFind]
  | cons v vs ih =>
    simp only [rangeFind]
    split
    · rename_i hv; subst hv; simp
    · rename_i hv
      rw [ih (k + 1)]
      simp only [List.mem_cons, not_or]
      constructor
      · intro h; exact ⟨fun e => hv e.symm, h⟩
      · intro h; exact h.2

/-! ## The operations in closed form -/

theorem removeClient_front (a : String) (rest spare : List String) :
    removeClient ⟨a :: rest, spare⟩ 0 = some (append ⟨[], a :: rest ++ spare⟩ rest) := by
  have h := removeClient_eq ⟨a :: rest, spare⟩ 0 (by simp [Slice.len])
  simpa using h

/-- The outcome of `Submit` from any state.  It never returns: where the body
reaches its `return`, the deferred `InterviewerMutex.Lock()` finds the mutex
held by the call itself. -/
theorem Submit_eq (sid uid url : String) (ch : Chan) (st : State) :
    Submit sid uid url ch st =
      if st.InterviewerMutex then .blocked st
      else if st.InterviewerList.elems = [] then
        if st.IntervieweeMutex then .blocked { st with InterviewerMutex := true }
        else .blocked { st with
          InterviewerMutex := true
          IntervieweeList := (append st.IntervieweeList [uid]).result }
      else .blocked { st with
        InterviewerMutex := true
        InterviewerList :=
          (append ⟨[], st.InterviewerList.cells⟩ st.InterviewerList.elems.tail).result } := by
  obtain ⟨l1, ⟨e2, s2⟩, m1, m2, sent⟩ := st
  cases m2 <;> cases m1 <;> cases e2 <;>
    simp [Submit, bind, Exec.bind, Lock, Unlock, deferring, getState, setIntervieweeList,
      setInterviewerList, State.held, State.setHeld, Slice.len, pure, orPanic,
      removeClient_front, Slice.cells]

/-- The outcome of `Register` from any state. -/
theorem Register_eq (uid : String) (ch : Chan) (st : State) :
    Register uid ch st =
      if st.IntervieweeMutex then .blocked st
      else if st.IntervieweeList.elems = [] then
        if st.InterviewerMutex then .blocked { st with IntervieweeMutex := true }
        else .done "평가등록완료" { st with
          InterviewerList := (append st.InterviewerList [uid]).result }
      else .done "평가등록완료" { st with
        IntervieweeList :=
          (append ⟨[], st.IntervieweeList.cells⟩ st.IntervieweeList.elems.tail).result } := by
  obtain ⟨⟨e1, s1⟩, l2, m1, m2, sent⟩ := st
  cases m2 <;> cases m1 <;> cases e1 <;>
    simp [Register, bind, Exec.bind, Lock, Unlock, deferring, getState, setIntervieweeList,
      setInterviewerList, State.held, State.setHeld, Slice.len, pure, orPanic,
      removeClient_front, Slice.cells]

/-- The outcome of `SubmitCancel` from any state. -/
theorem SubmitCancel_eq (uid : String) (st : State) :
    SubmitCancel uid st =
      if st.IntervieweeMutex then .blocked st
      else match rangeFind uid st.IntervieweeList.elems 0 with
        | some i => .done "취소완료" { st with
            IntervieweeList := ⟨shifted st.IntervieweeList.elems i, st.IntervieweeList.spare⟩ }
        | none => .done "취소오류" st := by
  obtain ⟨l1, l2, m1, m2, sent⟩ := st
  cases m1
  · cases hf : rangeFind uid l1.elems 0 with
    | none =>
      simp [SubmitCancel, bind, Exec.bind, Lock, Unlock, deferring, getState,
        setIntervieweeList, State.held, State.setHeld, pure, orPanic, hf]
    | some i =>
      have hb := rangeFind_bounds uid l1.elems 0 i hf
      obtain ⟨r, hr, -, ho⟩ := removeClient_spec l1 i (by simp [Slice.len]; omega)
      simp [SubmitCancel, bind, Exec.bind, Lock, Unlock, deferring, getState,
        setIntervieweeList, State.held, State.setHeld, pure, orPanic, hf, hr, ho, shifted,
        Slice.len]
  · simp [SubmitCancel, bind, Exec.bind, Lock, State.held]

/-- The outcome of `RegisterCancel` from any state. -/
theorem RegisterCancel_eq (uid : String) (st : State) :
    RegisterCancel uid st =
      if st.InterviewerMutex then .blocked st
      else match rangeFind uid st.InterviewerList.elems 0 with
        | some i => .done "평가취소완료" { st with
            InterviewerList := ⟨shifted st.InterviewerList.elems i, st.InterviewerList.spare⟩ }
        | none => .done "평가취소오류" st := by
  obtain ⟨l1, l2, m1, m2, sent⟩ := st
  cases m2
  · cases hf : rangeFind uid l2.elems 0 with
    | none =>
      simp [RegisterCancel, bind, Exec.bind, Lock, Unlock, deferring, getState,
        setInterviewerList, State.held, State.setHeld, pure, orPanic, hf]
    | some i =>
      have hb := rangeFind_bounds uid l2.elems 0 i hf
      obtain ⟨r, hr, -, ho⟩ := removeClient_spec l2 i (by simp [Slice.len]; omega)
      simp [RegisterCancel, bind, Exec.bind, Lock, Unlock, deferring, getState,
        setInterviewerList, State.held, State.setHeld, pure, orPanic, hf, hr, ho, shifted,
        Slice.len]
  · simp [RegisterCancel, bind, Exec.bind, Lock, State.held]

theorem shifted_length_eq (l : List String) (i : Nat) (h : i < l.length) :
    (shifted l i).length = l.length :=
  shifted_length l i h

theorem collectNames_eq (p : String → Option String) (l acc : List String) :
    collectNames p l acc = acc ++ l.filterMap p := by
  induction l generalizing acc with
  | nil => simp [collectNames]
  | cons v vs ih =>
    simp only [collectNames]
    cases hp : p v with
    | none => simp [ih, List.filterMap_cons, hp]
    | some i => simp [ih, List.filterMap_cons, hp]

/-- The outcome of `matchEmbedRow` from any state. -/
theorem matchEmbedRow_eq (m : MutexId) (s : String) (p : String → Option String) (l : PoolId)
    (st : State) :
    matchEmbedRow m s p l st =
      if st.held m then .blocked st
      else .done
        { name := s
          lines := if (st.pool l).elems.filterMap p = [] then ["대기열 없음"]
            else (st.pool l).elems.filterMap p } st := by
  obtain ⟨l1, l2, m1, m2, sent⟩ := st
  cases m <;> cases l <;> cases m1 <;> cases m2 <;>
    simp [matchEmbedRow, bind, Exec.bind, Lock, Unlock, getState, State.held, State.setHeld,
      State.pool, pure, collectNames_eq] <;>
    split <;> simp_all

/-! ## Lock discipline -/

/-- With both mutexes free, `Register` returns and leaves both mutexes free. -/
theorem Register_completes (uid : String) (ch : Chan) (st : State)
    (h1 : st.IntervieweeMutex = false) (h2 : st.InterviewerMutex = false) :
    ∃ st1, Register uid ch st = .done "평가등록완료" st1 ∧
      st1.IntervieweeMutex = false ∧ st1.InterviewerMutex = false := by
  by_cases he : st.IntervieweeList.elems = [] <;> simp [Register_eq, h1, h2, he]

/-- With `IntervieweeMutex` free, `SubmitCancel` returns and leaves the mutex
flags as they were; where it reports success the submitter pool has the length
it had before. -/
theorem SubmitCancel_completes (uid : String) (st : State)
    (h1 : st.IntervieweeMutex = false) :
    ∃ msg st1, SubmitCancel uid st = .done msg st1 ∧
      st1.IntervieweeMutex = false ∧ st1.InterviewerMutex = st.InterviewerMutex ∧
      st1.submitters.length = st.submitters.length ∧ st1.evaluators = st.evaluators := by
  rw [SubmitCancel_eq]
  simp only [h1, Bool.false_eq_true, if_false]
  cases hf : rangeFind uid st.IntervieweeList.elems 0 with
  | none => exact ⟨_, _, rfl, h1, rfl, rfl, rfl⟩
  | some i =>
    have hb := rangeFind_bounds uid _ 0 i hf
    refine ⟨_, _, rfl, rfl, rfl, ?_, rfl⟩
    exact shifted_length_eq _ i (by omega)

/-- With `InterviewerMutex` free, `RegisterCancel` returns and leaves the mutex
flags as they were; where it reports success the evaluator pool has the length
it had before. -/
theorem RegisterCancel_completes (uid : String) (st : State)
    (h2 : st.InterviewerMutex = false) :
    ∃ msg st1, RegisterCancel uid st = .done msg st1 ∧
      st1.InterviewerMutex = false ∧ st1.IntervieweeMutex = st.IntervieweeMutex ∧
      st1.evaluators.length = st.evaluators.length ∧ st1.submitters = st.submitters := by
  rw [RegisterCancel_eq]
  simp only [h2, Bool.false_eq_true, if_false]
  cases hf : rangeFind uid st.InterviewerList.elems 0 with
  | none => exact ⟨_, _, rfl, h2, rfl, rfl, rfl⟩
  | some i =>
    have hb := rangeFind_bounds uid _ 0 i hf
    refine ⟨_, _, rfl, rfl, rfl, ?_, rfl⟩
    exact shifted_length_eq _ i (by omega)

/-! ## Matching and queueing -/

/-- The pool effect of `Submit` and `Register` for a call that gets hold of the
mutexes it asks for.  `Submit` with an empty evaluator pool puts `uid` at the
tail of the submitter pool; with a non-empty evaluator pool it takes away
exactly the oldest evaluator and leaves the submitter pool untouched.
`Register` does the same with the pools exchanged. -/
theorem arrival_pools_of_free (st : State) (sid uid url : String) (ch : Chan) :
    (st.InterviewerMutex = false → st.IntervieweeMutex = false → st.evaluators = [] →
      (Submit sid uid url ch st).state.submitters = st.submitters ++ [uid] ∧
      (Submit sid uid url ch st).state.evaluators = []) ∧
    (st.InterviewerMutex = false → ∀ a rest, st.evaluators = a :: rest →
      (Submit sid uid url ch st).state.evaluators = rest ∧
      (Submit sid uid url ch st).state.submitters = st.submitters) ∧
    (st.IntervieweeMutex = false → st.InterviewerMutex = false → st.submitters = [] →
      (Register uid ch st).state.evaluators = st.evaluators ++ [uid] ∧
      (Register uid ch st).state.submitters = []) ∧
    (st.IntervieweeMutex = false → ∀ a rest, st.submitters = a :: rest →
      (Register uid ch st).state.submitters = rest ∧
      (Register uid ch st).state.evaluators = st.evaluators) := by
  simp only [State.submitters, State.evaluators]
  refine ⟨?_, ?_, ?_, ?_⟩
  · intro h1 h2 h3
    simp [Submit_eq, h1, h2, h3, Result.state, append_result_elems]
  · intro h1 a rest h3
    simp [Submit_eq, h1, h3, Result.state, append_result_elems]
  · intro h1 h2 h3
    simp [Register_eq, h1, h2, h3, Result.state, append_result_elems]
  · intro h1 a rest h3
    simp [Register_eq, h1, h3, Result.state, append_result_elems]

/-- C1 (code at the failing input). After `Submit("u1")` from the initial state
the evaluator pool is empty and `InterviewerMutex` is still held by that call.
A second `Submit("u2")` stops in its first `InterviewerMutex.Lock()`: `u2` is
not put at the tail of the submitter pool, the state is as before.  After
`Submit("u1")` and `Register("e1")` the submitter pool is empty; `Register("e2")`
stops in `InterviewerMutex.Lock()` and `e2` is not put in the evaluator pool. -/
theorem arrival_after_submit_not_queued :
    oneSubmitter.evaluators = [] ∧ oneSubmitter.submitters = ["u1"] ∧
    Submit "Day01" "u2" "url" 2 oneSubmitter = .blocked oneSubmitter ∧
    (Submit "Day01" "u2" "url" 2 oneSubmitter).state.submitters ≠
      oneSubmitter.submitters ++ ["u2"] ∧
    afterSubmitMatch.submitters = [] ∧ afterSubmitMatch.evaluators = [] ∧
    Register "e2" 3 afterSubmitMatch =
      .blocked { afterSubmitMatch with IntervieweeMutex := true } ∧
    (Register "e2" 3 afterSubmitMatch).state.evaluators ≠
      afterSubmitMatch.evaluators ++ ["e2"] := by
  refine ⟨by rfl, by rfl, by rfl, by decide, by rfl, by rfl, by rfl, by decide⟩

theorem Submit_never_returns (sid uid url : String) (ch : Chan) (st : State) :
    (Submit sid uid url ch st).value = none := by
  rw [Submit_eq]
  split_ifs <;> rfl

theorem step_sent (st : State) (c : Call) : (step st c).sent = st.sent := by
  cases c with
  | Submit sid uid url ch =>
    simp only [step, Call.exec, Submit_eq]; split_ifs <;> rfl
  | Register uid ch =>
    simp only [step, Call.exec, Register_eq]; split_ifs <;> rfl
  | SubmitCancel uid =>
    simp only [step, Call.exec, SubmitCancel_eq]
    split_ifs
    · rfl
    · split <;> rfl
  | RegisterCancel uid =>
    simp only [step, Call.exec, RegisterCancel_eq]
    split_ifs
    · rfl
    · split <;> rfl

/-- C4 (code at the failing input). From the initial state, where both mutexes
are free, `Submit` queues `u1` and then stops in its deferred
`InterviewerMutex.Lock()`: it does not return, and `InterviewerMutex` stays
held. -/
theorem submit_blocks_on_deferred_lock :
    Submit "Day01" "u1" "url" 1 init =
      .blocked { init with
        InterviewerMutex := true
        IntervieweeList := ⟨["u1"], List.replicate 99 ""⟩ } := by
  rfl

/-- C2 (code at the failing input). After `Submit("u1")` from the initial state,
`SubmitCancel("u1")` returns its success message and leaves the state as it
was, `u1` still waiting; the following `Register("u2")` is matched with `u1`
and is not queued.  With two evaluators `a`, `b` waiting, a successful
`RegisterCancel("a")` leaves a pool of the same length that holds `b` twice. -/
theorem cancel_success_keeps_entry :
    SubmitCancel "u1" oneSubmitter = .done "취소완료" oneSubmitter ∧
    oneSubmitter.submitters = ["u1"] ∧
    (Register "u2" 2 (step oneSubmitter (.SubmitCancel "u1"))).state.submitters = [] ∧
    (Register "u2" 2 (step oneSubmitter (.SubmitCancel "u1"))).state.evaluators = [] ∧
    (RegisterCancel "a" twoEvaluators).value = some "평가취소완료" ∧
    twoEvaluators.evaluators = ["a", "b"] ∧
    (RegisterCancel "a" twoEvaluators).state.evaluators = ["b", "b"] := by
  refine ⟨by rfl, by rfl, by rfl, by rfl, by rfl, by rfl, by rfl⟩

/-- C8 (code at the failing input). A second `SubmitCancel("u1")` directly after
a successful one succeeds again, and so does a second `RegisterCancel("u1")`:
the first cancellation did not take the entry out. -/
theorem second_cancel_succeeds_again :
    (SubmitCancel "u1" oneSubmitter).value = some "취소완료" ∧
    (SubmitCancel "u1" (step oneSubmitter (.SubmitCancel "u1"))).value = some "취소완료" ∧
    (RegisterCancel "u1" oneEvaluator).value = some "평가취소완료" ∧
    (RegisterCancel "u1" (step oneEvaluator (.RegisterCancel "u1"))).value =
      some "평가취소완료" := by
  refine ⟨by rfl, by rfl, by rfl, by rfl⟩

/-- C3 (code at the failing input). `Submit("u2")` finds evaluator `u1` waiting
and takes it out of the pool, yet nothing has been sent on any channel and the
call itself does not return; `Register("u2")` finds submitter `u1` waiting,
takes it out, sends nothing either and returns only the fixed message. -/
theorem pop_without_delivery :
    oneEvaluator.evaluators = ["u1"] ∧
    (Submit "Day01" "u2" "url" 2 oneEvaluator).state.evaluators = [] ∧
    (Submit "Day01" "u2" "url" 2 oneEvaluator).state.sent = [] ∧
    (Submit "Day01" "u2" "url" 2 oneEvaluator).value = none ∧
    oneSubmitter.submitters = ["u1"] ∧
    (Register "u2" 2 oneSubmitter).state.submitters = [] ∧
    (Register "u2" 2 oneSubmitter).state.sent = [] ∧
    (Register "u2" 2 oneSubmitter).value = some "평가등록완료" := by
  refine ⟨by rfl, by rfl, by rfl, by rfl, by rfl, by rfl, by rfl, by rfl⟩

/-- C5 (counterexample). `u1` waits in the evaluator pool, the submitter pool is
empty; `Register("u1")` returns the success message and the pool holds `u1`
twice. -/
theorem register_requeues_waiting :
    "u1" ∈ oneEvaluator.evaluators ∧ oneEvaluator.submitters = [] ∧
    (Register "u1" 2 oneEvaluator).value = some "평가등록완료" ∧
    (Register "u1" 2 oneEvaluator).state.evaluators = ["u1", "u1"] ∧
    (Register "u1" 2 oneEvaluator).state.evaluators ≠ oneEvaluator.evaluators := by
  refine ⟨by decide, by rfl, by rfl, by rfl, by decide⟩

/-- C5 (amended). There is no check for a participant who is already waiting.
With both mutexes free, `Register` of a `uid` that already occurs in the
evaluator pool, the submitter pool being empty, returns the success message and
puts `uid` at the tail of the evaluator pool once more; `Submit` of a `uid`
that already occurs in the submitter pool, the evaluator pool being empty, puts
`uid` at the tail of the submitter pool once more. -/
theorem arrival_requeues_waiting (st : State) (sid uid url : String) (ch : Chan)
    (hfree : st.IntervieweeMutex = false ∧ st.InterviewerMutex = false) :
    (uid ∈ st.evaluators → st.submitters = [] →
      (Register uid ch st).value = some "평가등록완료" ∧
      (Register uid ch st).state.evaluators = st.evaluators ++ [uid] ∧
      (Register uid ch st).state.submitters = []) ∧
    (uid ∈ st.submitters → st.evaluators = [] →
      (Submit sid uid url ch st).state.submitters = st.submitters ++ [uid] ∧
      (Submit sid uid url ch st).state.evaluators = []) := by
  obtain ⟨h1, h2⟩ := hfree
  simp only [State.submitters, State.evaluators]
  constructor
  · intro _ h3
    simp [Register_eq, h1, h2, h3, Result.state, Result.value, append_result_elems]
  · intro _ h3
    simp [Submit_eq, h1, h2, h3, Result.state, append_result_elems]

theorem arrival_requeues_waiting_witness :
    ((Register "u1" 2 oneEvaluator).value = some "평가등록완료" ∧
      (Register "u1" 2 oneEvaluator).state.evaluators = oneEvaluator.evaluators ++ ["u1"] ∧
      (Register "u1" 2 oneEvaluator).state.submitters = []) ∧
    ((Submit "Day01" "u1" "url" 2 waitingSubmitter).state.submitters =
        waitingSubmitter.submitters ++ ["u1"] ∧
      (Submit "Day01" "u1" "url" 2 waitingSubmitter).state.evaluators = []) :=
  ⟨(arrival_requeues_waiting oneEvaluator "Day01" "u1" "url" 2 ⟨rfl, rfl⟩).1 (by decide) rfl,
   (arrival_requeues_waiting waitingSubmitter "Day01" "u1" "url" 2 ⟨rfl, rfl⟩).2 (by decide) rfl⟩

/-! ## Cancellation of an absent participant -/

/-- The failure path of the cancel operations for a call that gets hold of its
mutex: `SubmitCancel(uid)` returns "취소오류" exactly if `uid` does not occur in
the submitter pool, and then the whole state is as before the call;
`RegisterCancel(uid)` likewise with "평가취소오류" and the evaluator pool. -/
theorem cancel_failure_of_free (st : State) (uid : String) :
    (st.IntervieweeMutex = false →
      ((SubmitCancel uid st).value = some "취소오류" ↔ uid ∉ st.submitters) ∧
      (uid ∉ st.submitters → SubmitCancel uid st = .done "취소오류" st)) ∧
    (st.InterviewerMutex = false →
      ((RegisterCancel uid st).value = some "평가취소오류" ↔ uid ∉ st.evaluators) ∧
      (uid ∉ st.evaluators → RegisterCancel uid st = .done "평가취소오류" st)) := by
  simp only [State.submitters, State.evaluators]
  constructor
  · intro h
    rw [SubmitCancel_eq, ← rangeFind_none uid _ 0]
    cases hf : rangeFind uid st.IntervieweeList.elems 0 with
    | none => simp [h, Result.value]
    | some i =>
      simp only [h, Bool.false_eq_true, if_false, Result.value]
      constructor
      · constructor
        · intro hc; exact absurd (Option.some.inj hc) (by decide)
        · intro hc; cases hc
      · intro hc; cases hc
  · intro h
    rw [RegisterCancel_eq, ← rangeFind_none uid _ 0]
    cases hf : rangeFind uid st.InterviewerList.elems 0 with
    | none => simp [h, Result.value]
    | some i =>
      simp only [h, Bool.false_eq_true, if_false, Result.value]
      constructor
      · constructor
        · intro hc; exact absurd (Option.some.inj hc) (by decide)
        · intro hc; cases hc
      · intro hc; cases hc

/-- C7 (code at the failing input). After `Register("e1")` and `Submit("s1")`,
which matched `e1`, `e1` is not in the evaluator pool, yet `RegisterCancel("e1")`
returns no message: it stops in `InterviewerMutex.Lock()`, the mutex the stuck
`Submit` holds.  After `Submit("u1")`, `Register("u2")`, `Register("u3")`, `x` is
not in the submitter pool, yet `SubmitCancel("x")` returns no message: it stops
in `IntervieweeMutex.Lock()`, the mutex the stuck `Register("u3")` holds. -/
theorem cancel_of_absent_returns_nothing :
    "e1" ∉ afterRegisterMatch.evaluators ∧
    RegisterCancel "e1" afterRegisterMatch = .blocked afterRegisterMatch ∧
    (RegisterCancel "e1" afterRegisterMatch).value ≠ some "평가취소오류" ∧
    "x" ∉ afterStuckRegister.submitters ∧
    SubmitCancel "x" afterStuckRegister = .blocked afterStuckRegister ∧
    (SubmitCancel "x" afterStuckRegister).value ≠ some "취소오류" := by
  refine ⟨by decide, by rfl, by decide, by decide, by rfl, by decide⟩

/-! ## The status row -/

/-- C9 (counterexample). `u1` waits in the submitter pool and the map knows no
name for it: the row has no line for `u1`, its only line is the placeholder,
although the queue is not empty. -/
theorem unknown_uid_is_dropped :
    oneSubmitter.submitters = ["u1"] ∧
    (matchEmbedRow .IntervieweeMutex "피평가자" (fun _ => none) .IntervieweeList
        oneSubmitter).value =
      some { name := "피평가자", lines := ["대기열 없음"] } := by
  refine ⟨by rfl, by rfl⟩

/-- C9 (amended). When it gets hold of its mutex, `matchEmbedRow` returns a row
with the given name and leaves the state, the queue included, as it was.  Its
lines are the display names of the waiting participants whose uid is in the
map, in queue order; a participant whose uid is not in the map gets no line.
If that leaves no line at all, as for the empty queue, the single line is
"대기열 없음". -/
theorem matchEmbedRow_lists_known_names (m : MutexId) (s : String)
    (p : String → Option String) (l : PoolId) (st : State) (hfree : st.held m = false) :
    matchEmbedRow m s p l st =
      .done
        { name := s
          lines := if (st.pool l).elems.filterMap p = [] then ["대기열 없음"]
            else (st.pool l).elems.filterMap p } st := by
  rw [matchEmbedRow_eq]
  simp [hfree]

theorem matchEmbedRow_lists_known_names_witness :
    twoEvaluators.held .InterviewerMutex = false ∧
    matchEmbedRow .InterviewerMutex "평가자" onlyAlice .InterviewerList twoEvaluators =
      .done { name := "평가자", lines := ["alice"] } twoEvaluators :=
  ⟨rfl, (matchEmbedRow_lists_known_names .InterviewerMutex "평가자" onlyAlice .InterviewerList
    twoEvaluators rfl).trans (by rfl)⟩

/-! ## Invariants of call sequences -/

/-- What a `Submit` or `Register` can do to the two pools, whatever the state. -/
theorem step_arrival_pools (st : State) (c : Call) (h : c.isArrival = true) :
    ((step st c).submitters = st.submitters ∧ (step st c).evaluators = st.evaluators) ∨
    ((step st c).submitters = st.submitters ++ [c.uid] ∧
      (step st c).evaluators = st.evaluators) ∨
    ((step st c).submitters = st.submitters ∧
      (step st c).evaluators = st.evaluators ++ [c.uid]) ∨
    ((step st c).submitters = st.submitters ∧
      (step st c).evaluators = st.evaluators.tail) ∨
    ((step st c).submitters = st.submitters.tail ∧
      (step st c).evaluators = st.evaluators) := by
  cases c with
  | Submit sid uid url ch =>
    simp only [step, Call.exec, Submit_eq, State.submitters, State.evaluators, Call.uid]
    split_ifs <;> simp [Result.state, append_result_elems]
  | Register uid ch =>
    simp only [step, Call.exec, Register_eq, State.submitters, State.evaluators, Call.uid]
    split_ifs <;> simp [Result.state, append_result_elems]
  | SubmitCancel uid => simp [Call.isArrival] at h
  | RegisterCancel uid => simp [Call.isArrival] at h

theorem step_arrival_waiting_sublist (st : State) (c : Call) (h : c.isArrival = true) :
    (step st c).waiting.Sublist (st.waiting ++ [c.uid]) ∨
    (step st c).waiting.Sublist (st.submitters ++ [c.uid] ++ st.evaluators) := by
  rcases step_arrival_pools st c h with h1 | h1 | h1 | h1 | h1 <;>
    simp only [State.waiting, h1.1, h1.2]
  · left; exact List.sublist_append_left _ _
  · right; exact List.Sublist.refl _
  · left; rw [List.append_assoc]
  · left
    exact ((List.Sublist.refl _).append (List.tail_sublist _)).trans
      (List.sublist_append_left _ _)
  · left
    exact ((List.tail_sublist _).append (List.Sublist.refl _)).trans
      (List.sublist_append_left _ _)

theorem step_arrival_nodup (st : State) (c : Call) (h : c.isArrival = true)
    (hfresh : c.uid ∉ st.waiting) (hn : st.waiting.Nodup) : (step st c).waiting.Nodup := by
  have hs : c.uid ∉ st.submitters := fun hx => hfresh (List.mem_append_left _ hx)
  have he : c.uid ∉ st.evaluators := fun hx => hfresh (List.mem_append_right _ hx)
  rcases step_arrival_waiting_sublist st c h with h1 | h1
  · refine List.Nodup.sublist h1 ?_
    rw [List.nodup_append]
    refine ⟨hn, List.nodup_singleton _, ?_⟩
    intro x hx hx2
    rw [List.mem_singleton] at hx2
    exact hfresh (hx2 ▸ hx)
  · refine List.Nodup.sublist h1 ?_
    simp only [State.waiting] at hn
    rw [List.nodup_append] at hn ⊢
    obtain ⟨n1, n2, n3⟩ := hn
    refine ⟨?_, n2, ?_⟩
    · rw [List.nodup_append]
      refine ⟨n1, List.nodup_singleton _, ?_⟩
      intro x hx hx2
      rw [List.mem_singleton] at hx2
      exact hs (hx2 ▸ hx)
    · intro x hx hx2
      rw [List.mem_append, List.mem_singleton] at hx
      rcases hx with hx | hx
      · exact n3 hx hx2
      · exact he (hx ▸ hx2)

theorem step_arrival_mem (st : State) (c : Call) (h : c.isArrival = true) (x : String)
    (hx : x ∈ (step st c).waiting) : x ∈ st.waiting ∨ x = c.uid := by
  rcases step_arrival_waiting_sublist st c h with h1 | h1
  · have := h1.subset hx
    simpa using this
  · have := h1.subset hx
    simp only [State.waiting, List.mem_append, List.mem_singleton] at this ⊢
    tauto

theorem run_arrivals_mem (calls : List Call) (st : State)
    (harr : ∀ c ∈ calls, c.isArrival = true) (x : String)
    (hx : x ∈ (run st calls).waiting) : x ∈ st.waiting ∨ x ∈ calls.map Call.uid := by
  induction calls generalizing st with
  | nil => left; simpa [run] using hx
  | cons c cs ih =>
    have hc := harr c (List.mem_cons_self _ _)
    have hcs : ∀ d ∈ cs, d.isArrival = true := fun d hd => harr d (List.mem_cons_of_mem _ hd)
    have hx2 : x ∈ (run (step st c) cs).waiting := by simpa [run] using hx
    rcases ih (step st c) hcs hx2 with h1 | h1
    · rcases step_arrival_mem st c hc x h1 with h2 | h2
      · exact Or.inl h2
      · right; simp [h2]
    · right; simp only [List.map_cons, List.mem_cons]; exact Or.inr h1

theorem run_arrivals_nodup (calls : List Call) (st : State)
    (harr : ∀ c ∈ calls, c.isArrival = true) (hd : (calls.map Call.uid).Nodup)
    (hfresh : ∀ c ∈ calls, c.uid ∉ st.waiting) (hn : st.waiting.Nodup) :
    (run st calls).waiting.Nodup := by
  induction calls generalizing st with
  | nil => simpa [run] using hn
  | cons c cs ih =>
    have hc := harr c (List.mem_cons_self _ _)
    have hcs : ∀ d ∈ cs, d.isArrival = true := fun d hd => harr d (List.mem_cons_of_mem _ hd)
    rw [List.map_cons, List.nodup_cons] at hd
    have hstep := step_arrival_nodup st c hc (hfresh c (List.mem_cons_self _ _)) hn
    have hfresh2 : ∀ d ∈ cs, d.uid ∉ (step st c).waiting := by
      intro d hdm hmem
      rcases step_arrival_mem st c hc d.uid hmem with h1 | h1
      · exact hfresh d (List.mem_cons_of_mem _ hdm) h1
      · exact hd.1 (h1 ▸ List.mem_map_of_mem Call.uid hdm)
    have := ih (step st c) hcs hd.2 hfresh2 hstep
    simpa [run] using this

theorem init_waiting : init.waiting = [] := by rfl

theorem popped_mem (c : Call) (st : State) (x : String) (h : c.popped st = some x) :
    x ∈ st.waiting := by
  cases c with
  | Submit sid uid url ch =>
    simp only [Call.popped] at h
    split_ifs at h
    exact List.mem_append_right _ (List.mem_of_mem_head? h)
  | Register uid ch =>
    simp only [Call.popped] at h
    split_ifs at h
    exact List.mem_append_left _ (List.mem_of_mem_head? h)
  | SubmitCancel uid => simp [Call.popped] at h
  | RegisterCancel uid => simp [Call.popped] at h

/-- C6. Take any sequence of `Submit` and `Register` calls with pairwise
distinct participant IDs, issued one after another from the initial state.  In
the state reached after any initial part `pre` of the sequence, no ID is in
both pools and no ID is twice in one pool; and the entry that the next call
`c` takes from the opposite pool, if it takes one, is not `c`'s own ID. -/
theorem arrivals_keep_pools_apart (calls : List Call)
    (harr : ∀ c ∈ calls, c.isArrival = true) (hd : (calls.map Call.uid).Nodup) :
    ∀ pre post, calls = pre ++ post →
      (∀ x ∈ (run init pre).submitters, x ∉ (run init pre).evaluators) ∧
      (run init pre).submitters.Nodup ∧ (run init pre).evaluators.Nodup ∧
      (∀ c rest, post = c :: rest → c.popped (run init pre) ≠ some c.uid) := by
  intro pre post hsplit
  subst hsplit
  have hpre : ∀ c ∈ pre, c.isArrival = true := fun c hc => harr c (List.mem_append_left _ hc)
  rw [List.map_append, List.nodup_append] at hd
  obtain ⟨hd1, hd2, hd3⟩ := hd
  have hn : (run init pre).waiting.Nodup :=
    run_arrivals_nodup pre init hpre hd1 (by simp [init_waiting]) (by simp [init_waiting])
  have hn2 := hn
  simp only [State.waiting] at hn2
  rw [List.nodup_append] at hn2
  refine ⟨fun x hx hx2 => hn2.2.2 hx hx2, hn2.1, hn2.2.1, ?_⟩
  intro c rest hpost hpop
  subst hpost
  have hmem := popped_mem c _ _ hpop
  rcases run_arrivals_mem pre init hpre c.uid hmem with h1 | h1
  · simp [init_waiting] at h1
  · exact hd3 h1 (by simp)

theorem arrivals_keep_pools_apart_witness :
    (∀ c ∈ [Call.Register "a" 1, .Register "b" 2, .Submit "Day01" "s" "url" 3],
        c.isArrival = true) ∧
    ([Call.Register "a" 1, .Register "b" 2, .Submit "Day01" "s" "url" 3].map Call.uid).Nodup ∧
    (∀ x ∈ twoEvaluators.submitters, x ∉ twoEvaluators.evaluators) ∧
    twoEvaluators.submitters.Nodup ∧ twoEvaluators.evaluators.Nodup ∧
    (Call.Submit "Day01" "s" "url" 3).popped twoEvaluators = some "a" ∧
    (Call.Submit "Day01" "s" "url" 3).popped twoEvaluators ≠ some "s" :=
  have h := arrivals_keep_pools_apart
    [.Register "a" 1, .Register "b" 2, .Submit "Day01" "s" "url" 3]
    (by decide) (by decide) [.Register "a" 1, .Register "b" 2] [.Submit "Day01" "s" "url" 3] rfl
  ⟨by decide, by decide, h.1, h.2.1, h.2.2.1, by rfl, h.2.2.2 _ [] rfl⟩

/-- The pools after any one call, whatever the state: if one of them was empty
before, one of them is empty after. -/
theorem step_one_pool_empty (st : State) (c : Call)
    (h : st.submitters = [] ∨ st.evaluators = []) :
    (step st c).submitters = [] ∨ (step st c).evaluators = [] := by
  simp only [State.submitters, State.evaluators] at h ⊢
  cases c with
  | Submit sid uid url ch =>
    simp only [step, Call.exec, Submit_eq]
    split_ifs with h1 h2 h3 <;> simp only [Result.state, append_result_elems]
    · exact h
    · exact h
    · exact Or.inr h2
    · rcases h with h | h
      · exact Or.inl h
      · exact absurd h h2
  | Register uid ch =>
    simp only [step, Call.exec, Register_eq]
    split_ifs with h1 h2 h3 <;> simp only [Result.state, append_result_elems]
    · exact h
    · exact h
    · exact Or.inl h2
    · rcases h with h | h
      · exact absurd h h2
      · exact Or.inr h
  | SubmitCancel uid =>
    simp only [step, Call.exec, SubmitCancel_eq]
    split_ifs with h1
    · exact h
    · rcases h with h | h
      · left
        rw [h]
        simp only [rangeFind, Result.state]
        exact h
      · right
        split <;> exact h
  | RegisterCancel uid =>
    simp only [step, Call.exec, RegisterCancel_eq]
    split_ifs with h1
    · exact h
    · rcases h with h | h
      · left
        split <;> exact h
      · right
        rw [h]
        simp only [rangeFind, Result.state]
        exact h

/-- C10. After any sequence of `Submit`, `Register`, `SubmitCancel` and
`RegisterCancel` calls, with any uids, issued one after another from the
initial state, the submitter pool is empty or the evaluator pool is empty. -/
theorem one_pool_always_empty (calls : List Call) :
    (run init calls).IntervieweeList.elems = [] ∨ (run init calls).InterviewerList.elems = [] := by
  have key : ∀ (cs : List Call) (st : State), (st.submitters = [] ∨ st.evaluators = []) →
      ((run st cs).submitters = [] ∨ (run st cs).evaluators = []) := by
    intro cs
    induction cs with
    | nil => intro st h; simpa [run] using h
    | cons c cs ih =>
      intro st h
      have := ih (step st c) (step_one_pool_empty st c h)
      simpa [run] using this
  exact key calls init (Or.inl rfl)

end PiscineClient
